import Mathlib

/-!
Verification of the blackbox audio recorder: a shallow embedding of the
S16LE mixing routine (`internal/ui/app.go`, `mixS16Mono`), the WAV writer
(`internal/wav/writer.go`) and the recording-session controller guard
(`internal/ui/app.go`, `App.StartRecordingAdvanced`), together with proofs
of the specification claims about them.

Bytes are modelled as `Nat` values below 256; `uint32`/`uint16` arithmetic
is `Nat` arithmetic with explicit `% 2^32` / `% 2^16`; `int16`/`int32`
values are `Int`.  Go's `/` on signed integers truncates toward zero, which
is `Int.tdiv`.  Fallible operations return `Except`/`Option`; an
out-of-range slice access (a Go runtime panic) makes the embedded function
return `none`.
-/

namespace Blackbox

/-- 2^32, the modulus of Go `uint32` arithmetic. -/
def U32 : Nat := 4294967296

/-- Little-endian encoding of a `uint16` value as two bytes. -/
def le16 (v : Nat) : List Nat := [v % 256, v / 256 % 256]

/-- Little-endian encoding of a `uint32` value as four bytes. -/
def le32 (v : Nat) : List Nat := [v % 256, v / 256 % 256, v / 65536 % 256, v / 16777216 % 256]

/-- Reinterpret a `uint16` bit pattern as a signed `int16` value
(two's complement), as Go's `int16(x)` conversion does. -/
def toInt16 (u : Nat) : Int :=
  if u % 65536 < 32768 then ((u % 65536 : Nat) : Int) else ((u % 65536 : Nat) : Int) - 65536

/-- Decode a 16-bit little-endian sample from two bytes, mirroring
`int16(b[i]) | int16(int16(b[i+1])<<8)` in `mixS16Mono`: the two bytes have
disjoint bit positions, so the bitwise-or is addition of `lo + 256*hi`,
then the pattern is read as a signed `int16`. -/
def decodeS16 (lo hi : Nat) : Int := toInt16 (lo % 256 + 256 * (hi % 256))

/-- The clamp to the signed 16-bit range applied in `mixS16Mono`. -/
def clampS16 (s : Int) : Int :=
  if s > 32767 then 32767 else if s < -32768 then -32768 else s

/-- One mixed sample: `s := int32(lv) + int32(mv); s /= 2` (Go division
truncates toward zero) followed by the clamp. -/
def mixSample (a b : Int) : Int := clampS16 (Int.tdiv (a + b) 2)

/-- The `uint16` bit pattern of an `int16` value, as in Go's
`uint16(int16(s))`. -/
def toUInt16 (s : Int) : Nat := (s % 65536).toNat

/-- Low output byte: `byte(uint16(int16(s)) & 0xFF)`. -/
def encLo (s : Int) : Nat := toUInt16 s % 256

/-- High output byte: `byte((uint16(int16(s)) >> 8) & 0xFF)`. -/
def encHi (s : Int) : Nat := toUInt16 s / 256 % 256

/-- The loop `for i := 0; i < n; i += 2 { ... }` of `mixS16Mono`.  Each
iteration performs, in source order, the four input reads
`loop[i], loop[i+1], mic[i], mic[i+1]` and the two output writes
`out[i], out[i+1]`; an index out of range is a Go runtime panic, modelled
as `none`. -/
def mixLoop (loop mic : List Nat) (n : Nat) (i : Nat) (out : List Nat) : Option (List Nat) :=
  if hi : i < n then
    match loop[i]?, loop[i + 1]?, mic[i]?, mic[i + 1]? with
    | some l0, some l1, some m0, some m1 =>
      let s := mixSample (decodeS16 l0 l1) (decodeS16 m0 m1)
      if i < out.length then
        if i + 1 < out.length then
          mixLoop loop mic n (i + 2) ((out.set i (encLo s)).set (i + 1) (encHi s))
        else none
      else none
    | _, _, _, _ => none
  else some out
termination_by n - i
decreasing_by omega

/-- `mixS16Mono` from `internal/ui/app.go`: pass the primary buffer through
when the secondary is empty, otherwise mix over `n = min` bytes into a
fresh `make([]byte, n)` buffer. -/
def mixS16Mono (loop mic : List Nat) : Option (List Nat) :=
  if mic.length = 0 then some loop
  else
    mixLoop loop mic (min loop.length mic.length) 0
      (List.replicate (min loop.length mic.length) 0)

end Blackbox

namespace Blackbox.Wav

/-- The state of `wav.Writer`: format parameters, the running `uint32` byte
counter `dataSize`, the `closed` flag, and the bytes of the output file
(the buffered writer is abstracted: bytes reach the file once flushed). -/
structure Writer where
  sampleRate : Nat
  channels : Nat
  bitsPerSample : Nat
  dataSize : Nat
  closed : Bool
  file : List Nat
deriving Repr, DecidableEq

/-- The 44-byte canonical header written by `writeHeader`: RIFF chunk
descriptor with a placeholder chunk size, PCM `fmt ` subchunk, and a `data`
subchunk header with a placeholder size. -/
def wavHeader (sr ch bits : Nat) : List Nat :=
  [82, 73, 70, 70] ++ le32 0 ++ [87, 65, 86, 69] ++
  [102, 109, 116, 32] ++ le32 16 ++ le16 1 ++ le16 ch ++ le32 sr ++
  le32 (sr * ch * bits % U32 / 8) ++ le16 (ch * bits % 65536 / 8) ++ le16 bits ++
  [100, 97, 116, 97] ++ le32 0

/-- `wav.NewWriter`: rejects any bit depth other than 16, otherwise starts
a writer whose file holds the header with placeholder sizes. -/
def newWriter (sr ch bits : Nat) : Except String Writer :=
  if bits ≠ 16 then Except.error "only 16-bit PCM supported"
  else Except.ok ⟨sr, ch, bits, 0, false, wavHeader sr ch bits⟩

/-- `Writer.Write`: returns `io.ErrClosedPipe` with 0 bytes when closed,
otherwise appends the bytes and advances the `uint32` counter. -/
def write (w : Writer) (p : List Nat) : (Nat × Option String) × Writer :=
  if w.closed then ((0, some "io: read/write on closed pipe"), w)
  else ((p.length, none),
    { w with dataSize := (w.dataSize + p.length) % U32, file := w.file ++ p })

/-- Overwrite the bytes of `f` starting at offset `off` with `bs`, one byte
at a time, as consecutive writes at a seek position do. -/
def setBytes : List Nat → Nat → List Nat → List Nat
  | f, _, [] => f
  | f, off, b :: bs => setBytes (f.set off b) (off + 1) bs

/-- `Writer.Close`: a no-op when already closed; otherwise patches the RIFF
chunk size `36 + dataSize` at offset 4 and the data chunk size at offset 40
(both `uint32`, little-endian) and marks the writer closed. -/
def close (w : Writer) : Option String × Writer :=
  if w.closed then (none, w)
  else
    let f1 := setBytes w.file 4 (le32 ((36 + w.dataSize) % U32))
    let f2 := setBytes f1 40 (le32 (w.dataSize % U32))
    (none, { w with closed := true, file := f2 })

/-- A sequence of `Write` calls. -/
def writeAll (w : Writer) (ps : List (List Nat)) : Writer :=
  ps.foldl (fun acc p => (write acc p).2) w

end Blackbox.Wav

namespace Blackbox.UI

open Blackbox.Wav

/-- The session-related fields of `ui.App` guarded by `a.mu`.  Pointer and
channel fields are identities (`Option Nat`), `none` meaning nil. -/
structure SessionState where
  recording : Bool
  dictation : Bool
  recorder : Option Nat
  mic : Option Nat
  writer : Option Writer
  ctx : Option Nat
  cancel : Option Nat
  flushTicker : Option Nat
  runErrCh : Option Nat
  wavPath : String
deriving Repr, DecidableEq

/-- Outcomes of the operations `StartRecordingAdvanced` performs after its
`a.recording` guard (directory creation, file creation, device
initialisation and start), plus the identities of the freshly created
session objects. -/
structure StartEnv where
  mkdirOk : Bool
  createOk : Bool
  recInitOk : Bool
  recStartOk : Bool
  micInitOk : Bool
  micStartOk : Bool
  timestamp : String
  recId : Nat
  micId : Nat
  ctxId : Nat
  cancelId : Nat
  tickerId : Nat
  errChId : Nat
deriving Repr, DecidableEq

/-- `App.StartRecordingAdvanced`: rejected with "already recording" while a
session is active; otherwise creates the WAV writer at 16 kHz mono 16-bit,
starts the capture devices for the requested mode, and installs the new
session fields.  Every failure path returns with the session state
untouched (the local writer is closed, not installed). -/
def startRecordingAdvanced (a : SessionState) (outDir : String) (withMic dictation : Bool)
    (env : StartEnv) : Except String String × SessionState :=
  if a.recording then (Except.error "already recording", a)
  else if !env.mkdirOk then (Except.error "mkdir", a)
  else
    let wavPath := outDir ++ "/" ++ env.timestamp ++ ".wav"
    if !env.createOk then (Except.error "open wav", a)
    else
      match newWriter 16000 1 16 with
      | Except.error e => (Except.error ("open wav: " ++ e), a)
      | Except.ok writer =>
        if dictation then
          if !env.micInitOk then (Except.error "init mic", a)
          else if !env.micStartOk then (Except.error "start mic", a)
          else (Except.ok wavPath,
            ⟨true, dictation, none, some env.micId, some writer, some env.ctxId,
             some env.cancelId, some env.tickerId, some env.errChId, wavPath⟩)
        else
          if !env.recInitOk then (Except.error "init recorder", a)
          else if !env.recStartOk then (Except.error "start recorder", a)
          else if withMic then
            if !env.micInitOk then (Except.error "init mic", a)
            else if !env.micStartOk then (Except.error "start mic", a)
            else (Except.ok wavPath,
              ⟨true, dictation, some env.recId, some env.micId, some writer, some env.ctxId,
               some env.cancelId, some env.tickerId, some env.errChId, wavPath⟩)
          else (Except.ok wavPath,
            ⟨true, dictation, some env.recId, none, some writer, some env.ctxId,
             some env.cancelId, some env.tickerId, some env.errChId, wavPath⟩)

end Blackbox.UI

namespace Blackbox.Wav

/-- The length of a little-endian 32-bit encoding. -/
theorem le32_length (v : Nat) : (le32 v).length = 4 := rfl

/-- A run of successful `Write` calls on an open writer appends all the
bytes to the file and advances the `uint32` counter by the total length. -/
theorem writeAll_spec : ∀ (ps : List (List Nat)) (w : Writer), w.closed = false →
    w.dataSize < U32 →
    (writeAll w ps).closed = false ∧
    (writeAll w ps).file = w.file ++ ps.flatten ∧
    (writeAll w ps).dataSize = (w.dataSize + (ps.map List.length).sum) % U32 := by
  intro ps
  induction ps with
  | nil =>
    intro w hc hd
    simp [writeAll, hc, Nat.mod_eq_of_lt hd]
  | cons p ps ih =>
    intro w hc hd
    have hw : (write w p).2 =
        { w with dataSize := (w.dataSize + p.length) % U32, file := w.file ++ p } := by
      simp [write, hc]
    have hstep : writeAll w (p :: ps) = writeAll (write w p).2 ps := rfl
    have hU : 0 < U32 := by norm_num [U32]
    obtain ⟨h1, h2, h3⟩ := ih (write w p).2 (by rw [hw]; exact hc)
      (by rw [hw]; exact Nat.mod_lt _ hU)
    refine ⟨by rw [hstep]; exact h1, ?_, ?_⟩
    · rw [hstep, h2, hw]
      simp [List.append_assoc]
    · rw [hstep, h3, hw]
      simp [Nat.mod_add_mod, Nat.add_assoc]

set_option maxHeartbeats 4000000 in
/-- Patching a written WAV file at offset 4 overwrites exactly the four
placeholder bytes of the RIFF chunk size. -/
theorem setBytes_header_chunkSize (sr ch c d : Nat) (data : List Nat) :
    ((setBytes (setBytes (wavHeader sr ch 16 ++ data) 4 (le32 c)) 40 (le32 d)).drop 4).take 4
      = le32 c := by
  rfl

set_option maxHeartbeats 4000000 in
/-- Patching a written WAV file at offset 40 overwrites exactly the four
placeholder bytes of the data chunk size. -/
theorem setBytes_header_dataSize (sr ch c d : Nat) (data : List Nat) :
    ((setBytes (setBytes (wavHeader sr ch 16 ++ data) 4 (le32 c)) 40 (le32 d)).drop 40).take 4
      = le32 d := by
  rfl

/-- `setBytes` never changes the length of the file. -/
theorem setBytes_length : ∀ (bs f : List Nat) (off : Nat),
    (setBytes f off bs).length = f.length := by
  intro bs
  induction bs with
  | nil => intro f off; rfl
  | cons b bs ih => intro f off; rw [setBytes, ih, List.length_set]

/-- The header written by `writeHeader` is 44 bytes long. -/
theorem wavHeader_length (sr ch bits : Nat) : (wavHeader sr ch bits).length = 44 := by
  simp [wavHeader, le32, le16]

/-- Claim C1: for every sequence of successful `Write` calls totalling `N`
bytes followed by `Close`, the file holds the little-endian `uint32` value
`36 + N` at offset 4 and the value `N` at offset 40, and its total size is
`44 + N` bytes. -/
theorem wav_close_header_sizes (sr ch : Nat) (w0 : Writer) (ps : List (List Nat))
    (h0 : newWriter sr ch 16 = Except.ok w0)
    (hN : 36 + (ps.map List.length).sum < U32) :
    ((close (writeAll w0 ps)).2.file.drop 4).take 4 =
      le32 (36 + (ps.map List.length).sum) ∧
    ((close (writeAll w0 ps)).2.file.drop 40).take 4 =
      le32 ((ps.map List.length).sum) ∧
    (close (writeAll w0 ps)).2.file.length = 44 + (ps.map List.length).sum := by
  have hok : (Except.ok (⟨sr, ch, 16, 0, false, wavHeader sr ch 16⟩ : Writer) :
      Except String Writer) = Except.ok w0 := by rw [← h0]; rfl
  injection hok with hw0
  subst hw0
  obtain ⟨hc, hf, hd⟩ := writeAll_spec ps ⟨sr, ch, 16, 0, false, wavHeader sr ch 16⟩
    rfl (by norm_num [U32])
  have hNlt : (ps.map List.length).sum < U32 := by omega
  have hd' : (writeAll ⟨sr, ch, 16, 0, false, wavHeader sr ch 16⟩ ps).dataSize =
      (ps.map List.length).sum := by
    rw [hd, Nat.zero_add, Nat.mod_eq_of_lt hNlt]
  have hfile : (close (writeAll ⟨sr, ch, 16, 0, false, wavHeader sr ch 16⟩ ps)).2.file =
      setBytes (setBytes (wavHeader sr ch 16 ++ ps.flatten) 4
        (le32 (36 + (ps.map List.length).sum)))
        40 (le32 ((ps.map List.length).sum)) := by
    simp only [close, hc, Bool.false_eq_true, if_false]
    rw [hd', hf]
    rw [Nat.mod_eq_of_lt hN, Nat.mod_eq_of_lt hNlt]
  rw [hfile]
  refine ⟨setBytes_header_chunkSize _ _ _ _ _, setBytes_header_dataSize _ _ _ _ _, ?_⟩
  rw [setBytes_length, setBytes_length]
  simp [wavHeader_length, List.length_flatten]

/-- Witness for C1: two writes of 2 and 1 bytes, then a close; the file has
`39 = 36 + 3` at offset 4, `3` at offset 40, and 47 bytes in total. -/
theorem wav_close_header_sizes_witness :
    (((close (writeAll ⟨16000, 1, 16, 0, false, wavHeader 16000 1 16⟩
        [[1, 2], [3]])).2.file.drop 4).take 4 = le32 39 ∧
     ((close (writeAll ⟨16000, 1, 16, 0, false, wavHeader 16000 1 16⟩
        [[1, 2], [3]])).2.file.drop 40).take 4 = le32 3 ∧
     (close (writeAll ⟨16000, 1, 16, 0, false, wavHeader 16000 1 16⟩
        [[1, 2], [3]])).2.file.length = 47) := by
  have h := wav_close_header_sizes 16000 1 _ [[1, 2], [3]] rfl (by norm_num [U32])
  simpa using h

/-- Claim C4: `Close` is idempotent.  Whatever state `Close` was first
called in, a second `Close` returns no error and leaves the writer - its
file bytes and its byte counter included - exactly as the first call left
it. -/
theorem wav_close_idempotent (w : Writer) :
    close (close w).2 = (none, (close w).2) := by
  by_cases h : w.closed
  · simp [close, h]
  · simp [close, h]

/-- Claim C5: every `Write` after `Close` returns the `io.ErrClosedPipe`
error with 0 bytes written and leaves the byte counter and the file
contents of the writer unchanged. -/
theorem wav_write_after_close_rejected (w : Writer) (p : List Nat) :
    write (close w).2 p = ((0, some "io: read/write on closed pipe"), (close w).2) := by
  by_cases h : w.closed <;> simp [close, write, h]

end Blackbox.Wav

namespace Blackbox

/-- An in-bounds optional lookup yields the defaulted element. -/
theorem getElem?_eq_some_getD {l : List Nat} {j : Nat} (h : j < l.length) :
    l[j]? = some (l.getD j 0) := by
  rw [List.getD_eq_getElem?_getD, List.getElem?_eq_getElem h]
  rfl

/-- The mixing loop terminates with the output buffer once `i` reaches `n`. -/
theorem mixLoop_stop {loop mic : List Nat} {n i : Nat} (out : List Nat) (h : ¬ i < n) :
    mixLoop loop mic n i out = some out := by
  rw [mixLoop, dif_neg h]

/-- One iteration of the mixing loop when all four reads and both writes
are in bounds. -/
theorem mixLoop_step {loop mic : List Nat} {n i : Nat} (out : List Nat)
    (hi : i < n) {l0 l1 m0 m1 : Nat}
    (h0 : loop[i]? = some l0) (h1 : loop[i + 1]? = some l1)
    (h2 : mic[i]? = some m0) (h3 : mic[i + 1]? = some m1)
    (ho : i < out.length) (ho1 : i + 1 < out.length) :
    mixLoop loop mic n i out =
      mixLoop loop mic n (i + 2)
        ((out.set i (encLo (mixSample (decodeS16 l0 l1) (decodeS16 m0 m1)))).set (i + 1)
          (encHi (mixSample (decodeS16 l0 l1) (decodeS16 m0 m1)))) := by
  rw [mixLoop, dif_pos hi]
  simp only [h0, h1, h2, h3]
  rw [if_pos ho, if_pos ho1]

/-- An iteration whose output write is out of bounds panics (yields
`none`), whatever its reads return. -/
theorem mixLoop_write_oob {loop mic : List Nat} {n i : Nat} {out : List Nat}
    (hi : i < n) (ho1 : ¬ i + 1 < out.length) :
    mixLoop loop mic n i out = none := by
  rw [mixLoop, dif_pos hi]
  cases hl0 : loop[i]? <;> cases hl1 : loop[i + 1]? <;>
    cases hm0 : mic[i]? <;> cases hm1 : mic[i + 1]? <;> simp [ho1]

/-- An iteration one of whose second-byte reads is out of bounds panics
(yields `none`). -/
theorem mixLoop_read_none {loop mic : List Nat} {n i : Nat} {out : List Nat}
    (hi : i < n) (h : loop[i + 1]? = none ∨ mic[i + 1]? = none) :
    mixLoop loop mic n i out = none := by
  rw [mixLoop, dif_pos hi]
  cases hl0 : loop[i]? <;> cases hl1 : loop[i + 1]? <;>
    cases hm0 : mic[i]? <;> cases hm1 : mic[i + 1]? <;> simp_all

/-- Loop invariant for an even trip count: starting `2 * k` steps from the
end with an `n`-byte output buffer, the loop completes and fills every
remaining aligned sample slot with the encoded clamped average of the two
decoded input samples. -/
theorem mixLoop_even (loop mic : List Nat) {n : Nat}
    (hln : n ≤ loop.length) (hmn : n ≤ mic.length) :
    ∀ (k i : Nat) (out : List Nat), out.length = n → i + 2 * k = n →
    ∃ res, mixLoop loop mic n i out = some res ∧
      res.length = n ∧
      (∀ j, j < i → res[j]? = out[j]?) ∧
      (∀ j, i ≤ j → j + 1 < n → (j - i) % 2 = 0 →
        res[j]? = some (encLo (mixSample (decodeS16 (loop.getD j 0) (loop.getD (j + 1) 0))
          (decodeS16 (mic.getD j 0) (mic.getD (j + 1) 0)))) ∧
        res[j + 1]? = some (encHi (mixSample (decodeS16 (loop.getD j 0) (loop.getD (j + 1) 0))
          (decodeS16 (mic.getD j 0) (mic.getD (j + 1) 0))))) := by
  intro k
  induction k with
  | zero =>
    intro i out hout hik
    have hin : i = n := by omega
    subst hin
    exact ⟨out, mixLoop_stop out (by omega), hout, fun j _ => rfl,
      fun j hj hj1 _ => by omega⟩
  | succ k ih =>
    intro i out hout hik
    have hi : i < n := by omega
    have hi1 : i + 1 < n := by omega
    have hstep := mixLoop_step out hi
      (getElem?_eq_some_getD (show i < loop.length by omega))
      (getElem?_eq_some_getD (show i + 1 < loop.length by omega))
      (getElem?_eq_some_getD (show i < mic.length by omega))
      (getElem?_eq_some_getD (show i + 1 < mic.length by omega))
      (by omega) (by omega)
    set s := mixSample (decodeS16 (loop.getD i 0) (loop.getD (i + 1) 0))
      (decodeS16 (mic.getD i 0) (mic.getD (i + 1) 0)) with hs
    set out' := (out.set i (encLo s)).set (i + 1) (encHi s) with hout'
    have hlen' : out'.length = n := by
      rw [hout', List.length_set, List.length_set, hout]
    obtain ⟨res, hres, hlen, hpre, hsuf⟩ := ih (i + 2) out' hlen' (by omega)
    refine ⟨res, by rw [hstep]; exact hres, hlen, ?_, ?_⟩
    · intro j hj
      rw [hpre j (by omega), hout', List.getElem?_set_ne (by omega),
        List.getElem?_set_ne (by omega)]
    · intro j hij hj1 hpar
      rcases Nat.eq_or_lt_of_le hij with heq | hlt
      · subst heq
        constructor
        · rw [hpre i (by omega), hout', List.getElem?_set_ne (by omega),
            List.getElem?_set_eq_of_lt _ (by omega)]
        · rw [hpre (i + 1) (by omega), hout',
            List.getElem?_set_eq_of_lt _ (by rw [List.length_set]; omega)]
      · exact hsuf j (by omega) hj1 (by omega)

/-- Loop invariant for an odd trip count: with an `n`-byte output buffer
and `n - i` odd, the loop's final iteration accesses index `n` and panics
(yields `none`). -/
theorem mixLoop_odd (loop mic : List Nat) {n : Nat}
    (hln : n ≤ loop.length) (hmn : n ≤ mic.length) :
    ∀ (k i : Nat) (out : List Nat), out.length = n → i + 2 * k + 1 = n →
    mixLoop loop mic n i out = none := by
  intro k
  induction k with
  | zero =>
    intro i out hout hik
    exact mixLoop_write_oob (by omega) (by omega)
  | succ k ih =>
    intro i out hout hik
    have hi : i < n := by omega
    have hstep := mixLoop_step out hi
      (getElem?_eq_some_getD (show i < loop.length by omega))
      (getElem?_eq_some_getD (show i + 1 < loop.length by omega))
      (getElem?_eq_some_getD (show i < mic.length by omega))
      (getElem?_eq_some_getD (show i + 1 < mic.length by omega))
      (by omega) (by omega)
    rw [hstep]
    exact ih (i + 2) _ (by rw [List.length_set, List.length_set, hout]) (by omega)

/-- The averaging of one sample pair is symmetric in its two inputs. -/
theorem mixSample_comm (a b : Int) : mixSample a b = mixSample b a := by
  unfold mixSample
  rw [Int.add_comm]

/-- When the minimum length is even, `mixS16Mono` completes and returns a
buffer of exactly the minimum length. -/
theorem mix_even_some (loop mic : List Nat) (hm0 : mic.length ≠ 0)
    (heven : min loop.length mic.length % 2 = 0) :
    ∃ out, mixS16Mono loop mic = some out ∧ out.length = min loop.length mic.length := by
  obtain ⟨res, h1, h2, _, _⟩ :=
    mixLoop_even loop mic (Nat.min_le_left loop.length mic.length)
      (Nat.min_le_right loop.length mic.length)
      (min loop.length mic.length / 2) 0
      (List.replicate (min loop.length mic.length) 0)
      (by rw [List.length_replicate]) (by omega)
  exact ⟨res, by rw [mixS16Mono, if_neg hm0]; exact h1, h2⟩

/-- Claim C8: mixing any primary buffer with an empty secondary buffer
returns the primary buffer unchanged, byte for byte. -/
theorem mix_empty_secondary_passthrough (p : List Nat) :
    mixS16Mono p [] = some p := by
  simp [mixS16Mono]

/-- Claim C2: for every pair of non-empty equal-length buffers of 16-bit
little-endian samples (even byte length), `mixS16Mono` succeeds and fills
each sample slot with `clamp((int32(a) + int32(b)) / 2)` re-encoded
little-endian, where `a` and `b` are the samples decoded at the matching
byte offsets of the two inputs. -/
theorem mix_equal_even_sample_spec (loop mic : List Nat) (hlen : loop.length = mic.length)
    (hne : mic ≠ []) (heven : loop.length % 2 = 0) :
    ∃ out, mixS16Mono loop mic = some out ∧ out.length = loop.length ∧
      ∀ j, j % 2 = 0 → j + 1 < out.length →
        out[j]? = some (encLo (mixSample (decodeS16 (loop.getD j 0) (loop.getD (j + 1) 0))
          (decodeS16 (mic.getD j 0) (mic.getD (j + 1) 0)))) ∧
        out[j + 1]? = some (encHi (mixSample (decodeS16 (loop.getD j 0) (loop.getD (j + 1) 0))
          (decodeS16 (mic.getD j 0) (mic.getD (j + 1) 0)))) := by
  have hm0 : mic.length ≠ 0 := by
    simpa using fun h => hne (List.length_eq_zero.mp h)
  have hmin : min loop.length mic.length = loop.length := by omega
  obtain ⟨res, h1, h2, _, h4⟩ :=
    mixLoop_even loop mic (Nat.min_le_left loop.length mic.length)
      (Nat.min_le_right loop.length mic.length)
      (loop.length / 2) 0
      (List.replicate (min loop.length mic.length) 0)
      (by rw [List.length_replicate]) (by omega)
  refine ⟨res, by rw [mixS16Mono, if_neg hm0]; exact h1, by omega, ?_⟩
  intro j hj hjlt
  exact h4 j (by omega) (by omega) (by omega)

/-- Witness for C2: mixing sample 0 (`[0x00, 0x00]`) with sample 32767
(`[0xFF, 0x7F]`) produces the bytes of sample 16383 (integer division). -/
theorem mix_equal_even_sample_spec_witness :
    ∃ out, mixS16Mono [0, 0] [255, 127] = some out ∧ out.length = 2 ∧
      out[0]? = some 255 ∧ out[1]? = some 63 ∧ decodeS16 255 63 = 16383 := by
  obtain ⟨out, h1, h2, h3⟩ :=
    mix_equal_even_sample_spec [0, 0] [255, 127] rfl (by simp) rfl
  have h2' : out.length = 2 := by simpa using h2
  obtain ⟨ha, hb⟩ := h3 0 rfl (by omega)
  have hlo : encLo (mixSample (decodeS16 (List.getD [0, 0] 0 0) (List.getD [0, 0] 1 0))
      (decodeS16 (List.getD [255, 127] 0 0) (List.getD [255, 127] 1 0))) = 255 := by decide
  have hhi : encHi (mixSample (decodeS16 (List.getD [0, 0] 0 0) (List.getD [0, 0] 1 0))
      (decodeS16 (List.getD [255, 127] 0 0) (List.getD [255, 127] 1 0))) = 63 := by decide
  exact ⟨out, h1, by simpa using h2, by rw [ha, hlo], by simpa [hhi] using hb, by decide⟩

/-- Claim C6 (counterexample): for the non-empty different-length buffers
`[0]` and `[0, 0]` the mix does not return a buffer at all - the loop
panics on an out-of-range index - so no buffer of length
`min 1 2` is returned. -/
theorem mix_len_min_cex :
    mixS16Mono [0] [0, 0] = none ∧ ¬ ∃ out, mixS16Mono [0] [0, 0] = some out := by
  have h : mixS16Mono [0] [0, 0] = none := by
    have hodd := mixLoop_odd [0] [0, 0] (n := min 1 2)
      (by simp) (by simp) 0 0 (List.replicate (min 1 2) 0)
      (by rw [List.length_replicate]) (by simp)
    rw [mixS16Mono, if_neg (by simp)]
    simpa using hodd
  exact ⟨h, by simp [h]⟩

/-- Claim C6 (amended): for every pair of non-empty buffers of different
lengths whose minimum length is even, the buffer returned by `mixS16Mono`
has length exactly `min (len primary) (len secondary)`; the excess tail of
the longer buffer does not appear in the output. -/
theorem mix_len_min_even_amended (loop mic : List Nat) (hl : loop ≠ []) (hm : mic ≠ [])
    (hne : loop.length ≠ mic.length) (heven : min loop.length mic.length % 2 = 0) :
    ∃ out, mixS16Mono loop mic = some out ∧
      out.length = min loop.length mic.length := by
  have hm0 : mic.length ≠ 0 := by
    simpa using fun h => hm (List.length_eq_zero.mp h)
  exact mix_even_some loop mic hm0 heven

/-- Witness for C6 (amended): a 4-byte primary mixed with a 2-byte
secondary yields a 2-byte output. -/
theorem mix_len_min_even_amended_witness :
    ∃ out, mixS16Mono [1, 2, 3, 4] [5, 6] = some out ∧ out.length = 2 := by
  have h := mix_len_min_even_amended [1, 2, 3, 4] [5, 6]
    (by simp) (by simp) (by simp) (by decide)
  simpa using h

/-- The mixing loop is symmetric in its two equal-length input buffers:
each iteration reads both buffers at the same indices, goes out of bounds
on one input exactly when it does on the other, and averages
symmetrically. -/
theorem mixLoop_comm {loop mic : List Nat} (hlen : loop.length = mic.length) {n : Nat}
    (hn : n ≤ loop.length) :
    ∀ (d i : Nat) (out : List Nat), n ≤ i + d →
      mixLoop loop mic n i out = mixLoop mic loop n i out := by
  intro d
  induction d with
  | zero =>
    intro i out h
    rw [mixLoop_stop out (by omega), mixLoop_stop out (by omega)]
  | succ d ih =>
    intro i out h
    by_cases hi : i < n
    · by_cases ho1 : i + 1 < out.length
      · by_cases hi1 : i + 1 < loop.length
        · have hl0 := getElem?_eq_some_getD (l := loop) (show i < loop.length by omega)
          have hl1 := getElem?_eq_some_getD (l := loop) hi1
          have hm0 := getElem?_eq_some_getD (l := mic) (show i < mic.length by omega)
          have hm1 := getElem?_eq_some_getD (l := mic) (show i + 1 < mic.length by omega)
          rw [mixLoop_step out hi hl0 hl1 hm0 hm1 (by omega) ho1,
            mixLoop_step out hi hm0 hm1 hl0 hl1 (by omega) ho1,
            mixSample_comm]
          exact ih (i + 2) _ (by omega)
        · rw [mixLoop_read_none hi (Or.inl (List.getElem?_eq_none (by omega))),
            mixLoop_read_none hi (Or.inl (List.getElem?_eq_none (by omega)))]
      · rw [mixLoop_write_oob hi ho1, mixLoop_write_oob hi ho1]
    · rw [mixLoop_stop out hi, mixLoop_stop out hi]

/-- Claim C7: `mixS16Mono` is commutative on equal-length buffers - the
two inputs may be swapped without changing the output, byte for byte
(and when the common length is odd, both orders panic alike). -/
theorem mix_comm (loop mic : List Nat) (h : loop.length = mic.length) :
    mixS16Mono loop mic = mixS16Mono mic loop := by
  by_cases h0 : mic.length = 0
  · have hl : loop = [] := List.length_eq_zero.mp (by omega)
    have hm : mic = [] := List.length_eq_zero.mp h0
    subst hl; subst hm; rfl
  · rw [mixS16Mono, if_neg h0, mixS16Mono, if_neg (by omega : ¬ loop.length = 0)]
    rw [Nat.min_comm mic.length loop.length]
    exact mixLoop_comm h (Nat.min_le_left loop.length mic.length)
      (min loop.length mic.length) 0 (List.replicate (min loop.length mic.length) 0)
      (Nat.le_add_left _ _)

/-- Witness for C7: a concrete swap of two 2-byte buffers. -/
theorem mix_comm_witness : mixS16Mono [1, 2] [3, 4] = mixS16Mono [3, 4] [1, 2] :=
  mix_comm [1, 2] [3, 4] rfl

/-- Any `uint16` bit pattern decodes to a signed value in the 16-bit
range. -/
theorem toInt16_range (u : Nat) : -32768 ≤ toInt16 u ∧ toInt16 u ≤ 32767 := by
  have h1 : u % 65536 < 65536 := Nat.mod_lt _ (by norm_num)
  unfold toInt16
  split <;> omega

/-- Claim C9: every 16-bit sample decoded from a buffer returned by
`mixS16Mono` lies in `[-32768, 32767]`; at the adversarial extreme, mixing
sample 32767 with itself yields exactly the bytes of 32767 - clamped, not
overflow-wrapped. -/
theorem mix_output_samples_in_range :
    (∀ loop mic out, mixS16Mono loop mic = some out →
      ∀ j, j + 1 < out.length →
        -32768 ≤ decodeS16 (out.getD j 0) (out.getD (j + 1) 0) ∧
        decodeS16 (out.getD j 0) (out.getD (j + 1) 0) ≤ 32767) ∧
    mixS16Mono [255, 127] [255, 127] = some [255, 127] := by
  constructor
  · intro loop mic out _ j _
    exact toInt16_range _
  · obtain ⟨res, h1, h2, _, h4⟩ :=
      mixLoop_even [255, 127] [255, 127] (n := min 2 2)
        (by simp) (by simp) 1 0 (List.replicate (min 2 2) 0)
        (by rw [List.length_replicate]) (by simp)
    obtain ⟨ha, hb⟩ := h4 0 (by omega) (by simp) (by simp)
    have hres : res = [255, 127] := by
      have h255 : encLo (mixSample
          (decodeS16 (List.getD [255, 127] 0 0) (List.getD [255, 127] 1 0))
          (decodeS16 (List.getD [255, 127] 0 0) (List.getD [255, 127] 1 0))) = 255 := by
        decide
      have h127 : encHi (mixSample
          (decodeS16 (List.getD [255, 127] 0 0) (List.getD [255, 127] 1 0))
          (decodeS16 (List.getD [255, 127] 0 0) (List.getD [255, 127] 1 0))) = 127 := by
        decide
      have hlen : res.length = 2 := by simpa using h2
      have e0 : res[0]? = some 255 := by rw [ha, h255]
      have e1 : res[1]? = some 127 := by simpa [h127] using hb
      rcases res with _ | ⟨a, _ | ⟨b, rest⟩⟩ <;> simp_all
    rw [mixS16Mono, if_neg (by simp)]
    simpa [hres] using h1

/-- Witness for C9: the samples decoded from the extreme-case output are
in range. -/
theorem mix_output_samples_in_range_witness :
    -32768 ≤ decodeS16 (List.getD [255, 127] 0 0) (List.getD [255, 127] 1 0) ∧
    decodeS16 (List.getD [255, 127] 0 0) (List.getD [255, 127] 1 0) ≤ 32767 := by
  have h := mix_output_samples_in_range
  exact h.1 [255, 127] [255, 127] [255, 127] h.2 0 (by simp)

/-- Claim C10: `mixS16Mono` on two non-empty buffers panics (an
out-of-range index, modelled as `none`) exactly when the minimum of the
two lengths is odd - the last iteration then accesses index `n` of the
`n`-byte output - and completes with a buffer of the minimum length when
that minimum is even. -/
theorem mix_total_iff_even_min (loop mic : List Nat) (hl : loop ≠ []) (hm : mic ≠ []) :
    (min loop.length mic.length % 2 = 1 → mixS16Mono loop mic = none) ∧
    (min loop.length mic.length % 2 = 0 →
      ∃ out, mixS16Mono loop mic = some out ∧
        out.length = min loop.length mic.length) := by
  have hm0 : mic.length ≠ 0 := by
    simpa using fun h => hm (List.length_eq_zero.mp h)
  constructor
  · intro hodd
    rw [mixS16Mono, if_neg hm0]
    exact mixLoop_odd loop mic (Nat.min_le_left loop.length mic.length)
      (Nat.min_le_right loop.length mic.length)
      (min loop.length mic.length / 2) 0 _ (by rw [List.length_replicate]) (by omega)
  · intro heven
    exact mix_even_some loop mic hm0 heven

/-- Witness for C10: `[0]` mixed with `[0]` (odd minimum) panics, while
`[0, 0]` mixed with `[0, 0]` (even minimum) completes with 2 bytes. -/
theorem mix_total_iff_even_min_witness :
    mixS16Mono [0] [0] = none ∧
    ∃ out, mixS16Mono [0, 0] [0, 0] = some out ∧ out.length = 2 := by
  constructor
  · exact (mix_total_iff_even_min [0] [0] (by simp) (by simp)).1 (by decide)
  · have h := (mix_total_iff_even_min [0, 0] [0, 0] (by simp) (by simp)).2 (by decide)
    simpa using h

end Blackbox

namespace Blackbox.UI

/-- Claim C3: `StartRecordingAdvanced` called while a session is active
returns the "already recording" error, and every session field of the
controller - recorder, mic, writer, ticker, cancel function, error
channel, recording flag and output path - is unchanged by the rejected
call, whatever the outcomes of the operations the call would otherwise
have performed. -/
theorem start_recording_rejected_when_active (a : SessionState) (outDir : String)
    (withMic dictation : Bool) (env : StartEnv) (h : a.recording = true) :
    startRecordingAdvanced a outDir withMic dictation env =
      (Except.error "already recording", a) ∧
    (startRecordingAdvanced a outDir withMic dictation env).2.recorder = a.recorder ∧
    (startRecordingAdvanced a outDir withMic dictation env).2.mic = a.mic ∧
    (startRecordingAdvanced a outDir withMic dictation env).2.writer = a.writer ∧
    (startRecordingAdvanced a outDir withMic dictation env).2.flushTicker = a.flushTicker ∧
    (startRecordingAdvanced a outDir withMic dictation env).2.cancel = a.cancel ∧
    (startRecordingAdvanced a outDir withMic dictation env).2.runErrCh = a.runErrCh ∧
    (startRecordingAdvanced a outDir withMic dictation env).2.recording = a.recording ∧
    (startRecordingAdvanced a outDir withMic dictation env).2.wavPath = a.wavPath := by
  simp [startRecordingAdvanced, h]

/-- Witness for C3: a concrete active session rejects a new start and is
left untouched. -/
theorem start_recording_rejected_when_active_witness :
    startRecordingAdvanced
      ⟨true, false, some 1, none, none, some 2, some 3, some 4, some 5, "out/a.wav"⟩
      "out" false false ⟨true, true, true, true, true, true, "ts", 1, 2, 3, 4, 5, 6⟩ =
      (Except.error "already recording",
        ⟨true, false, some 1, none, none, some 2, some 3, some 4, some 5, "out/a.wav"⟩) :=
  (start_recording_rejected_when_active _ _ _ _ _ rfl).1

end Blackbox.UI
